import Mathlib

/-!
Shallow embedding of the `jstexteditactionstack` repository: the undo/redo
action stack for a text editor (`src/texteditactionstack.js`), together with
the value types it manipulates (`src/texteditaction.js`,
`src/texteditactiontype.js`).

External collaborators (`diff`, `apply` and `reverse` of the
`jstextdiffpatch` diff engine, the `jstextselection` cursor patcher, and the pluggable
editor-identity equality) are not part of this repository; the stack code is
polymorphic over them, so the embedding takes them as explicit function
parameters, exactly where the JavaScript calls out to the corresponding
module.  Event dispatch (`super.dispatch`) is modelled by returning the list
of emitted events alongside the new state.

Histories are JavaScript arrays used with `push`/`pop` at the end, so they
are lists with the most recent record last.
-/

/-- Kind of a single text change, from the `jstextdiffpatch` collaborator:
`ChangeType.added` or `ChangeType.removed`. -/
inductive ChangeType where
  | added
  | removed
deriving DecidableEq, Repr

/-- One contiguous insertion or deletion at a snapshot-relative offset
(the `TextChange` value of `jstextdiffpatch`). -/
structure TextChange where
  position : Nat
  changeType : ChangeType
  text : String
deriving DecidableEq, Repr

/-- A single contiguous cursor/selection range (the `TextSelection` value of
`jstextselection`); `start = endPos` denotes a collapsed caret.  The source
field named `end` is a Lean keyword, hence `endPos`. -/
structure TextSelection where
  start : Nat
  endPos : Nat
deriving DecidableEq, Repr

/-- `src/texteditaction.js`: information of one text-edit operation, generic
over the editor-identity type. -/
structure TextEditAction (α : Type) where
  editorIdentify : α
  selectionBefore : TextSelection
  selectionAfter : TextSelection
  textChanges : List TextChange
deriving DecidableEq, Repr

/-- `src/texteditactiontype.js`: the type of a recorded action. -/
inductive TextEditActionType where
  | update
  | restore
deriving DecidableEq, Repr

/-- Payload of one `actionCreate` event dispatch: the call to
`super.dispatch` with an action type and the action itself. -/
structure ActionCreateEvent (α : Type) where
  textEditActionType : TextEditActionType
  textEditAction : TextEditAction α
deriving DecidableEq, Repr

/-- The mutable state of `src/texteditactionstack.js`: the editor identity
plus the two history arrays (`undoActions`, `redoActions`), most recent
record last. -/
structure TextEditActionStack (α : Type) where
  editorIdentify : α
  undoActions : List (TextEditAction α)
  redoActions : List (TextEditAction α)
deriving DecidableEq, Repr

/-- Value returned by a successful `undo`/`redo` call:
`{textContent, selection, textEditAction}`. -/
structure RestoreResult (α : Type) where
  textContent : String
  selection : TextSelection
  textEditAction : TextEditAction α
deriving DecidableEq, Repr

/-- The test `/^\n+$/.test(s)`: `s` is nonempty and consists solely of
newline characters. -/
def isAllNewlines (s : String) : Bool :=
  !s.data.isEmpty && s.data.all (fun ch => ch = '\n')

/-- Placeholder used where the JavaScript would read `undefined` from an
out-of-range array index (callers guarantee the index is in range). -/
def dummyTextChange : TextChange :=
  ⟨0, ChangeType.added, ""⟩

namespace TextEditActionStack

variable {α : Type}

/-- Constructor of `TextEditActionStack`: both histories start empty. -/
def mk0 (editorIdentify : α) : TextEditActionStack α :=
  ⟨editorIdentify, [], []⟩

/-- `clear()`: empties both histories. -/
def clear (st : TextEditActionStack α) : TextEditActionStack α :=
  { st with undoActions := [], redoActions := [] }

/-- `get canUndo()`: the undo stack is non-empty. -/
def canUndo (st : TextEditActionStack α) : Bool :=
  st.undoActions.length > 0

/-- `get canRedo()`: the redo stack is non-empty. -/
def canRedo (st : TextEditActionStack α) : Bool :=
  st.redoActions.length > 0

/-- `pushIntoUndoStack(currentTextEditAction)`, lines 146-282 of
`texteditactionstack.js`; `cur` is the `currentTextEditAction` argument and
`eq` the pluggable `editorIdentify.equals(other)` capability.  The guard
order follows the JavaScript: the empty-stack test short-circuits before
`lastTextEditAction.editorIdentify` is read. -/
def pushIntoUndoStack (eq : α → α → Bool) (st : TextEditActionStack α)
    (cur : TextEditAction α) : TextEditActionStack α :=
  match st.undoActions.getLast? with
  | none =>
      -- undo stack empty: push the rebuilt action, clear the redo stack
      { st with
        undoActions := st.undoActions ++
          [⟨cur.editorIdentify, cur.selectionBefore, cur.selectionAfter,
            cur.textChanges⟩],
        redoActions := [] }
  | some lastTextEditAction =>
      if cur.textChanges.length > 1 ∨
          cur.selectionAfter.start ≠ cur.selectionAfter.endPos ∨
          eq cur.editorIdentify lastTextEditAction.editorIdentify = false then
        { st with
          undoActions := st.undoActions ++
            [⟨cur.editorIdentify, cur.selectionBefore, cur.selectionAfter,
              cur.textChanges⟩],
          redoActions := [] }
      else
        if isAllNewlines (cur.textChanges.headD dummyTextChange).text ∨
            isAllNewlines
              (lastTextEditAction.textChanges.getLastD dummyTextChange).text then
          -- newlines are never folded
          { st with
            undoActions := st.undoActions ++
              [⟨cur.editorIdentify, cur.selectionBefore, cur.selectionAfter,
                [cur.textChanges.headD dummyTextChange]⟩],
            redoActions := [] }
        else if (lastTextEditAction.textChanges.getLastD dummyTextChange).changeType
              = ChangeType.added ∧
            (cur.textChanges.headD dummyTextChange).changeType
              = ChangeType.added then
          if (cur.textChanges.headD dummyTextChange).position =
              (lastTextEditAction.textChanges.getLastD dummyTextChange).position +
                (lastTextEditAction.textChanges.getLastD dummyTextChange).text.length then
            -- pop the last action, push the folded one
            { st with
              undoActions := st.undoActions.dropLast ++
                [⟨cur.editorIdentify, lastTextEditAction.selectionBefore,
                  cur.selectionAfter,
                  lastTextEditAction.textChanges.dropLast ++
                    [⟨(lastTextEditAction.textChanges.getLastD dummyTextChange).position,
                      ChangeType.added,
                      (lastTextEditAction.textChanges.getLastD dummyTextChange).text ++
                        (cur.textChanges.headD dummyTextChange).text⟩]⟩],
              redoActions := [] }
          else
            { st with
              undoActions := st.undoActions ++
                [⟨cur.editorIdentify, cur.selectionBefore, cur.selectionAfter,
                  [cur.textChanges.headD dummyTextChange]⟩],
              redoActions := [] }
        else if (lastTextEditAction.textChanges.getLastD dummyTextChange).changeType
              = ChangeType.removed ∧
            (cur.textChanges.headD dummyTextChange).changeType
              = ChangeType.removed then
          if (cur.textChanges.headD dummyTextChange).position =
              (lastTextEditAction.textChanges.getLastD dummyTextChange).position then
            -- the delete key: previous removing + this time removing
            { st with
              undoActions := st.undoActions.dropLast ++
                [⟨cur.editorIdentify, lastTextEditAction.selectionBefore,
                  cur.selectionAfter,
                  lastTextEditAction.textChanges.dropLast ++
                    [⟨(lastTextEditAction.textChanges.getLastD dummyTextChange).position,
                      ChangeType.removed,
                      (lastTextEditAction.textChanges.getLastD dummyTextChange).text ++
                        (cur.textChanges.headD dummyTextChange).text⟩]⟩],
              redoActions := [] }
          else if ((cur.textChanges.headD dummyTextChange).position : Int) =
              ((lastTextEditAction.textChanges.getLastD dummyTextChange).position : Int) -
                ((cur.textChanges.headD dummyTextChange).text.length : Int) then
            -- the backspace key: this time removing + the previous removing
            { st with
              undoActions := st.undoActions.dropLast ++
                [⟨cur.editorIdentify, lastTextEditAction.selectionBefore,
                  cur.selectionAfter,
                  lastTextEditAction.textChanges.dropLast ++
                    [⟨(cur.textChanges.headD dummyTextChange).position,
                      ChangeType.removed,
                      (cur.textChanges.headD dummyTextChange).text ++
                        (lastTextEditAction.textChanges.getLastD dummyTextChange).text⟩]⟩],
              redoActions := [] }
          else
            { st with
              undoActions := st.undoActions ++
                [⟨cur.editorIdentify, cur.selectionBefore, cur.selectionAfter,
                  [cur.textChanges.headD dummyTextChange]⟩],
              redoActions := [] }
        else
          { st with
            undoActions := st.undoActions ++
              [⟨cur.editorIdentify, cur.selectionBefore, cur.selectionAfter,
                [cur.textChanges.headD dummyTextChange]⟩],
            redoActions := [] }

/-- `updateByTextChanges(textChanges, lastSelection, selection)`: builds the
candidate action with the own identity of the stack, dispatches the
`actionCreate` event of type `update` carrying the candidate, then pushes
the candidate through the merge policy.  Returns the new state, the emitted
events, and the unmerged candidate (the JavaScript return value). -/
def updateByTextChanges (eq : α → α → Bool) (st : TextEditActionStack α)
    (textChanges : List TextChange)
    (lastSelection selection : TextSelection) :
    TextEditActionStack α × List (ActionCreateEvent α) × TextEditAction α :=
  let textEditAction : TextEditAction α :=
    ⟨st.editorIdentify, lastSelection, selection, textChanges⟩
  let events := [⟨TextEditActionType.update, textEditAction⟩]
  let st2 := pushIntoUndoStack eq st textEditAction
  (st2, events, textEditAction)

/-- `update(lastTextContent, textContent, lastSelection, selection)`: asks
the diff engine (`diffFn`, standing for `TextDiffPatch.diff`) for the change
sequence and delegates to `updateByTextChanges`. -/
def update (diffFn : String → String → List TextChange)
    (eq : α → α → Bool) (st : TextEditActionStack α)
    (lastTextContent textContent : String)
    (lastSelection selection : TextSelection) :
    TextEditActionStack α × List (ActionCreateEvent α) × TextEditAction α :=
  updateByTextChanges eq st (diffFn lastTextContent textContent)
    lastSelection selection

/-- `updateAndApplyByExternalTextEditAction(textEditAction, lastTextContent,
lastSelection)`: applies the external change sequence to the snapshot via
`applyFn` (`TextDiffPatch.apply`), pushes the record through
`pushIntoUndoStack`, patches the cursor via `cursorApplyFn`
(`CursorPatch.apply`), and returns the new snapshot and selection.  No
`actionCreate` event is dispatched on this path. -/
def updateAndApplyByExternalTextEditAction
    (eq : α → α → Bool)
    (applyFn : String → List TextChange → String)
    (cursorApplyFn : TextSelection → List TextChange → TextSelection)
    (st : TextEditActionStack α) (textEditAction : TextEditAction α)
    (lastTextContent : String) (lastSelection : TextSelection) :
    TextEditActionStack α × String × TextSelection :=
  let textContent := applyFn lastTextContent textEditAction.textChanges
  let st2 := pushIntoUndoStack eq st textEditAction
  let selection := cursorApplyFn lastSelection textEditAction.textChanges
  (st2, textContent, selection)

/-- `reverseAction(textEditAction)`: swap the selections and replace the
change sequence by the inverse from the diff engine (`reverseFn`, standing for
`TextDiffPatch.reverse`). -/
def reverseAction (reverseFn : List TextChange → List TextChange)
    (textEditAction : TextEditAction α) : TextEditAction α :=
  ⟨textEditAction.editorIdentify,
    textEditAction.selectionAfter,
    textEditAction.selectionBefore,
    reverseFn textEditAction.textChanges⟩

/-- `applyTextEditAction(textEditAction, lastTextContent)`: new snapshot and
the `selectionAfter` of the action. -/
def applyTextEditAction (applyFn : String → List TextChange → String)
    (textEditAction : TextEditAction α) (lastTextContent : String) :
    String × TextSelection :=
  (applyFn lastTextContent textEditAction.textChanges,
    textEditAction.selectionAfter)

/-- `undo(lastTextContent)`: no-op when `canUndo` is false; otherwise pops
the top undo record, repacks it with the own identity of the stack, pushes the
repacked record onto the redo stack, reverses it, applies the reversal to
the snapshot, dispatches a `restore` event carrying the reversal and returns
the new snapshot, selection and the reversal record. -/
def undo (applyFn : String → List TextChange → String)
    (reverseFn : List TextChange → List TextChange)
    (st : TextEditActionStack α) (lastTextContent : String) :
    TextEditActionStack α × List (ActionCreateEvent α) ×
      Option (RestoreResult α) :=
  match st.undoActions.getLast? with
  | none => (st, [], none)
  | some textEditAction =>
      let repackedTextEditAction : TextEditAction α :=
        ⟨st.editorIdentify,
          textEditAction.selectionBefore,
          textEditAction.selectionAfter,
          textEditAction.textChanges⟩
      let st2 :=
        { st with
          undoActions := st.undoActions.dropLast,
          redoActions := st.redoActions ++ [repackedTextEditAction] }
      let reverseTextEditAction := reverseAction reverseFn repackedTextEditAction
      let applied := applyTextEditAction applyFn reverseTextEditAction lastTextContent
      (st2,
        [⟨TextEditActionType.restore, reverseTextEditAction⟩],
        some ⟨applied.1, applied.2, reverseTextEditAction⟩)

/-- `redo(lastTextContent)`: no-op when `canRedo` is false; otherwise pops
the top redo record, repacks it with the own identity of the stack, pushes the
repacked record onto the undo stack, applies it (not reversed) to the
snapshot, dispatches a `restore` event and returns the new snapshot,
selection and the repacked record. -/
def redo (applyFn : String → List TextChange → String)
    (st : TextEditActionStack α) (lastTextContent : String) :
    TextEditActionStack α × List (ActionCreateEvent α) ×
      Option (RestoreResult α) :=
  match st.redoActions.getLast? with
  | none => (st, [], none)
  | some textEditAction =>
      let repackedTextEditAction : TextEditAction α :=
        ⟨st.editorIdentify,
          textEditAction.selectionBefore,
          textEditAction.selectionAfter,
          textEditAction.textChanges⟩
      let st2 :=
        { st with
          undoActions := st.undoActions ++ [repackedTextEditAction],
          redoActions := st.redoActions.dropLast }
      let applied := applyTextEditAction applyFn repackedTextEditAction lastTextContent
      (st2,
        [⟨TextEditActionType.restore, repackedTextEditAction⟩],
        some ⟨applied.1, applied.2, repackedTextEditAction⟩)

end TextEditActionStack

namespace TextEditActionStack

variable {α : Type}

/-!
Helper lemmas shared by the claim theorems, plus small concrete fixtures
(`Nat` identities compared with `==`, trivial collaborator functions) used
to exercise them at concrete inputs.
-/

/-- In every branch of `pushIntoUndoStack`, the result keeps the identity of
the stack, clears the redo stack, and its undo stack is the old undo stack
(or the old one minus its top, in a fold) with one record appended that
carries the identity of the candidate. -/
theorem pushIntoUndoStack_shape (eq : α → α → Bool)
    (st : TextEditActionStack α) (cur : TextEditAction α) :
    ∃ pre rec,
      (pushIntoUndoStack eq st cur).undoActions = pre ++ [rec] ∧
      (pre = st.undoActions ∨ pre = st.undoActions.dropLast) ∧
      rec.editorIdentify = cur.editorIdentify ∧
      (pushIntoUndoStack eq st cur).redoActions = [] ∧
      (pushIntoUndoStack eq st cur).editorIdentify = st.editorIdentify := by
  unfold pushIntoUndoStack
  split
  · exact ⟨_, _, rfl, Or.inl rfl, rfl, rfl, rfl⟩
  · split
    · exact ⟨_, _, rfl, Or.inl rfl, rfl, rfl, rfl⟩
    · split
      · exact ⟨_, _, rfl, Or.inl rfl, rfl, rfl, rfl⟩
      · split
        · split
          · exact ⟨_, _, rfl, Or.inr rfl, rfl, rfl, rfl⟩
          · exact ⟨_, _, rfl, Or.inl rfl, rfl, rfl, rfl⟩
        · split
          · split
            · exact ⟨_, _, rfl, Or.inr rfl, rfl, rfl, rfl⟩
            · split
              · exact ⟨_, _, rfl, Or.inr rfl, rfl, rfl, rfl⟩
              · exact ⟨_, _, rfl, Or.inl rfl, rfl, rfl, rfl⟩
          · exact ⟨_, _, rfl, Or.inl rfl, rfl, rfl, rfl⟩

/-- Step 1 of the merge policy: the condition under which the candidate is
appended without any fold attempt. -/
def appendCondition (eq : α → α → Bool) (st : TextEditActionStack α)
    (cur : TextEditAction α) : Prop :=
  st.undoActions = [] ∨
  cur.textChanges.length > 1 ∨
  cur.selectionAfter.start ≠ cur.selectionAfter.endPos ∨
  ∃ init lastA, st.undoActions = init ++ [lastA] ∧
    eq cur.editorIdentify lastA.editorIdentify = false

/-- Under `appendCondition`, `pushIntoUndoStack` appends the candidate with
its fields unchanged and clears the redo stack. -/
theorem pushIntoUndoStack_append (eq : α → α → Bool)
    (st : TextEditActionStack α) (cur : TextEditAction α)
    (h : appendCondition eq st cur) :
    pushIntoUndoStack eq st cur =
      { st with undoActions := st.undoActions ++ [cur], redoActions := [] } := by
  rcases h with h | h | h | ⟨init, lastA, hu, hid⟩
  · unfold pushIntoUndoStack
    rw [h]
    rfl
  · unfold pushIntoUndoStack
    rcases hl : st.undoActions.getLast? with _ | lastA
    · rfl
    · dsimp only
      rw [if_pos (Or.inl h)]
  · unfold pushIntoUndoStack
    rcases hl : st.undoActions.getLast? with _ | lastA
    · rfl
    · dsimp only
      rw [if_pos (Or.inr (Or.inl h))]
  · unfold pushIntoUndoStack
    rw [hu, List.getLast?_concat]
    dsimp only
    rw [if_pos (Or.inr (Or.inr hid))]

/-- Evaluation of `pushIntoUndoStack` for a simple candidate (single change,
collapsed caret, identity equal to that of the undo-stack top): the result
is the decision tree of step 2 of the merge policy over the sole change of
the candidate and the last change of the top record. -/
theorem pushIntoUndoStack_simple (eq : α → α → Bool)
    (st : TextEditActionStack α)
    (cur lastA : TextEditAction α) (init : List (TextEditAction α))
    (c lc : TextChange) (lcs : List TextChange)
    (hu : st.undoActions = init ++ [lastA])
    (hc : cur.textChanges = [c])
    (hsel : cur.selectionAfter.start = cur.selectionAfter.endPos)
    (hid : eq cur.editorIdentify lastA.editorIdentify = true)
    (hlc : lastA.textChanges = lcs ++ [lc]) :
    pushIntoUndoStack eq st cur =
      if isAllNewlines c.text ∨ isAllNewlines lc.text then
        { st with undoActions := st.undoActions ++ [cur], redoActions := [] }
      else if lc.changeType = ChangeType.added ∧
          c.changeType = ChangeType.added then
        if c.position = lc.position + lc.text.length then
          { st with
            undoActions := init ++
              [⟨cur.editorIdentify, lastA.selectionBefore, cur.selectionAfter,
                lcs ++ [⟨lc.position, ChangeType.added, lc.text ++ c.text⟩]⟩],
            redoActions := [] }
        else
          { st with undoActions := st.undoActions ++ [cur], redoActions := [] }
      else if lc.changeType = ChangeType.removed ∧
          c.changeType = ChangeType.removed then
        if c.position = lc.position then
          { st with
            undoActions := init ++
              [⟨cur.editorIdentify, lastA.selectionBefore, cur.selectionAfter,
                lcs ++ [⟨lc.position, ChangeType.removed, lc.text ++ c.text⟩]⟩],
            redoActions := [] }
        else if (c.position : Int) = (lc.position : Int) - (c.text.length : Int) then
          { st with
            undoActions := init ++
              [⟨cur.editorIdentify, lastA.selectionBefore, cur.selectionAfter,
                lcs ++ [⟨c.position, ChangeType.removed, c.text ++ lc.text⟩]⟩],
            redoActions := [] }
        else
          { st with undoActions := st.undoActions ++ [cur], redoActions := [] }
      else
        { st with undoActions := st.undoActions ++ [cur], redoActions := [] } := by
  have hcur : (⟨cur.editorIdentify, cur.selectionBefore, cur.selectionAfter, [c]⟩ :
      TextEditAction α) = cur := by
    rw [← hc]
  unfold pushIntoUndoStack
  rw [hu, List.getLast?_concat]
  dsimp only
  rw [if_neg (by simp [hc, hsel, hid])]
  simp only [hc, hlc, List.getLastD_concat, List.headD_cons, List.dropLast_concat]
  rw [hcur]

/-- The invariant asserted by the spec: every record stored in either
history carries the identity of the owning stack. -/
def identityInvariant (st : TextEditActionStack α) : Prop :=
  ∀ a ∈ st.undoActions ++ st.redoActions, a.editorIdentify = st.editorIdentify

/-- Concrete identity capability for witnesses: `Nat` compared with `==`
(a faithful instance of the pluggable `equals`). -/
def natIdentifyEquals : Nat → Nat → Bool := fun a b => a == b

/-- Trivial diff-engine `apply` collaborator used at concrete inputs where
the stack behavior under scrutiny does not depend on it. -/
def applyStub : String → List TextChange → String := fun t _ => t

/-- Trivial `CursorPatch.apply` collaborator for concrete inputs. -/
def cursorStub : TextSelection → List TextChange → TextSelection := fun s _ => s

/-- Trivial diff-engine `reverse` collaborator for concrete inputs; together
with `applyStub` it satisfies the inverse contract of the spec. -/
def reverseStub : List TextChange → List TextChange := fun cs => cs

/-- Concrete local action of editor 7: insert `a` at position 0. -/
def act7a : TextEditAction Nat := ⟨7, ⟨0, 0⟩, ⟨1, 1⟩, [⟨0, ChangeType.added, "a"⟩]⟩

/-- Concrete action of a foreign editor 9: insert `x` at position 0. -/
def foreignAction : TextEditAction Nat :=
  ⟨9, ⟨0, 0⟩, ⟨1, 1⟩, [⟨0, ChangeType.added, "x"⟩]⟩

/-- Concrete action of editor 7 with two change entries. -/
def multiAction : TextEditAction Nat :=
  ⟨7, ⟨0, 0⟩, ⟨5, 5⟩, [⟨0, ChangeType.added, "x"⟩, ⟨3, ChangeType.removed, "y"⟩]⟩

end TextEditActionStack

namespace TextEditActionStack

/-!
Claim theorems.  Each theorem is stated against the embedded operations
above; counterexamples are closed evaluations at concrete, reachable
inputs.
-/

/-- C1, counterexample.  The claim says `updateAndApplyByExternalTextEditAction`
appends the received record verbatim with no merge-policy evaluation and
leaves the redo history unchanged.  In the code the external path calls
`pushIntoUndoStack`, which runs the full merge policy and always clears the
redo stack: starting from a stack (identity 7) whose undo history holds one
record of foreign editor 9 (insert `x` at 0) and whose redo history is
non-empty, pushing a second record of editor 9 (insert `y` at 1) folds the
two foreign records into a single `xy` record and empties the redo
history. -/
theorem claim1_counterexample :
    (updateAndApplyByExternalTextEditAction natIdentifyEquals applyStub cursorStub
        ⟨7, [⟨9, ⟨0, 0⟩, ⟨1, 1⟩, [⟨0, ChangeType.added, "x"⟩]⟩],
            [⟨7, ⟨0, 0⟩, ⟨1, 1⟩, [⟨0, ChangeType.added, "r"⟩]⟩]⟩
        ⟨9, ⟨1, 1⟩, ⟨2, 2⟩, [⟨1, ChangeType.added, "y"⟩]⟩ "t" ⟨0, 0⟩).1 =
      ⟨7, [⟨9, ⟨0, 0⟩, ⟨2, 2⟩, [⟨0, ChangeType.added, "xy"⟩]⟩], []⟩ ∧
    (⟨7, [⟨9, ⟨0, 0⟩, ⟨1, 1⟩, [⟨0, ChangeType.added, "x"⟩]⟩],
        [⟨7, ⟨0, 0⟩, ⟨1, 1⟩, [⟨0, ChangeType.added, "r"⟩]⟩]⟩ :
      TextEditActionStack Nat).redoActions ≠ [] := by
  decide

/-- C1, amended.  `updateAndApplyByExternalTextEditAction` computes the new
snapshot and selection through the collaborators and pushes the received
record through the same merge policy as local edits (`pushIntoUndoStack`);
the redo history is always cleared.  When step 1 of the merge policy
applies — in particular when the undo history is empty, or the identity of
the record differs (per `eq`) from that of the undo-history top — the
record is appended verbatim, and a subsequent `undo` pops and reverses
exactly that external record. -/
theorem claim1_externalEdit_amended (eq : α → α → Bool)
    (applyFn : String → List TextChange → String)
    (cursorApplyFn : TextSelection → List TextChange → TextSelection)
    (reverseFn : List TextChange → List TextChange)
    (st : TextEditActionStack α) (a : TextEditAction α)
    (lastTextContent : String) (lastSelection : TextSelection) :
    updateAndApplyByExternalTextEditAction eq applyFn cursorApplyFn st a
        lastTextContent lastSelection =
      (pushIntoUndoStack eq st a,
        applyFn lastTextContent a.textChanges,
        cursorApplyFn lastSelection a.textChanges) ∧
    (pushIntoUndoStack eq st a).redoActions = [] ∧
    ((st.undoActions = [] ∨
        ∃ init lastA, st.undoActions = init ++ [lastA] ∧
          eq a.editorIdentify lastA.editorIdentify = false) →
      pushIntoUndoStack eq st a =
        { st with undoActions := st.undoActions ++ [a], redoActions := [] } ∧
      ∀ t2, (undo applyFn reverseFn (pushIntoUndoStack eq st a) t2).2.2 =
        some ⟨applyFn t2 (reverseFn a.textChanges), a.selectionBefore,
          ⟨st.editorIdentify, a.selectionAfter, a.selectionBefore,
            reverseFn a.textChanges⟩⟩) := by
  refine ⟨rfl, ?_, ?_⟩
  · obtain ⟨_, _, _, _, _, h4, _⟩ := pushIntoUndoStack_shape eq st a
    exact h4
  · intro h
    have happ : pushIntoUndoStack eq st a =
        { st with undoActions := st.undoActions ++ [a], redoActions := [] } := by
      apply pushIntoUndoStack_append
      rcases h with h | ⟨init, lastA, hu, hid⟩
      · exact Or.inl h
      · exact Or.inr (Or.inr (Or.inr ⟨init, lastA, hu, hid⟩))
    refine ⟨happ, ?_⟩
    intro t2
    rw [happ]
    unfold undo
    dsimp only
    rw [List.getLast?_concat]
    dsimp only [reverseAction, applyTextEditAction]

/-- C1, witness for the amended theorem: pushing a foreign record onto a
fresh stack of editor 7 appends it verbatim, and the following `undo`
returns the reversal of exactly that record. -/
theorem claim1_externalEdit_amended_witness :
    pushIntoUndoStack natIdentifyEquals (mk0 7) foreignAction =
      ⟨7, [foreignAction], []⟩ ∧
    (undo applyStub reverseStub
        (pushIntoUndoStack natIdentifyEquals (mk0 7) foreignAction) "t").2.2 =
      some ⟨"t", foreignAction.selectionBefore,
        ⟨7, foreignAction.selectionAfter, foreignAction.selectionBefore,
          reverseStub foreignAction.textChanges⟩⟩ := by
  have h := (claim1_externalEdit_amended natIdentifyEquals applyStub cursorStub
    reverseStub (mk0 7) foreignAction "t" ⟨0, 0⟩).2.2 (Or.inl rfl)
  exact ⟨h.1, h.2 "t"⟩

/-- C2, counterexample.  The claim says every stored history entry carries
the identity of the storing stack.  But `pushIntoUndoStack` stores the
candidate with the identity of the candidate, and the external path passes
the received record through unchanged: pushing a record of foreign editor 9
into a fresh stack of editor 7 stores that record with identity 9. -/
theorem claim2_counterexample :
    (updateAndApplyByExternalTextEditAction natIdentifyEquals applyStub cursorStub
        (mk0 7) foreignAction "t" ⟨0, 0⟩).1.undoActions = [foreignAction] ∧
    foreignAction.editorIdentify ≠
      (updateAndApplyByExternalTextEditAction natIdentifyEquals applyStub cursorStub
        (mk0 7) foreignAction "t" ⟨0, 0⟩).1.editorIdentify := by
  decide

/-- C2, amended.  The identity invariant (every stored record carries the
identity of the owning stack) is preserved by the local operations:
`updateByTextChanges` stores candidates built with the identity of the
stack, `undo` and `redo` re-stamp the moved record, and `clear` empties
both histories.  It is not an invariant of all reachable states, because
`updateAndApplyByExternalTextEditAction` stores the incoming record without
re-wrapping (see the counterexample). -/
theorem claim2_identityInvariant_amended (eq : α → α → Bool)
    (applyFn : String → List TextChange → String)
    (reverseFn : List TextChange → List TextChange)
    (st : TextEditActionStack α) (hinv : identityInvariant st)
    (textChanges : List TextChange) (lastSelection selection : TextSelection)
    (t : String) :
    identityInvariant (updateByTextChanges eq st textChanges lastSelection selection).1 ∧
    identityInvariant (undo applyFn reverseFn st t).1 ∧
    identityInvariant (redo applyFn st t).1 ∧
    identityInvariant (clear st) := by
  refine ⟨?_, ?_, ?_, ?_⟩
  · show identityInvariant
      (pushIntoUndoStack eq st ⟨st.editorIdentify, lastSelection, selection, textChanges⟩)
    obtain ⟨pre, rec, h1, h2, h3, h4, h5⟩ :=
      pushIntoUndoStack_shape eq st
        ⟨st.editorIdentify, lastSelection, selection, textChanges⟩
    intro a ha
    rw [h1, h4] at ha
    rw [h5]
    simp only [List.append_nil, List.mem_append, List.mem_singleton] at ha
    rcases ha with ha | rfl
    · rcases h2 with rfl | rfl
      · exact hinv a (List.mem_append_left _ ha)
      · exact hinv a (List.mem_append_left _ (List.dropLast_subset _ ha))
    · exact h3
  · rcases hl : st.undoActions.getLast? with _ | a0
    · have hst : (undo applyFn reverseFn st t).1 = st := by
        unfold undo; rw [hl]
      rw [hst]; exact hinv
    · have hst : (undo applyFn reverseFn st t).1 =
          { st with
            undoActions := st.undoActions.dropLast,
            redoActions := st.redoActions ++
              [⟨st.editorIdentify, a0.selectionBefore, a0.selectionAfter,
                a0.textChanges⟩] } := by
        unfold undo; rw [hl]
      rw [hst]
      intro a ha
      simp only [List.mem_append, List.mem_singleton] at ha
      rcases ha with ha | ha | rfl
      · exact hinv a (List.mem_append_left _ (List.dropLast_subset _ ha))
      · exact hinv a (List.mem_append_right _ ha)
      · rfl
  · rcases hl : st.redoActions.getLast? with _ | a0
    · have hst : (redo applyFn st t).1 = st := by
        unfold redo; rw [hl]
      rw [hst]; exact hinv
    · have hst : (redo applyFn st t).1 =
          { st with
            undoActions := st.undoActions ++
              [⟨st.editorIdentify, a0.selectionBefore, a0.selectionAfter,
                a0.textChanges⟩],
            redoActions := st.redoActions.dropLast } := by
        unfold redo; rw [hl]
      rw [hst]
      intro a ha
      simp only [List.mem_append, List.mem_singleton] at ha
      rcases ha with (ha | rfl) | ha
      · exact hinv a (List.mem_append_left _ ha)
      · rfl
      · exact hinv a (List.mem_append_right _ (List.dropLast_subset _ ha))
  · intro a ha
    simp [clear] at ha

/-- C2, witness for the amended theorem at a concrete stack satisfying the
invariant. -/
theorem claim2_identityInvariant_amended_witness :
    identityInvariant
      (updateByTextChanges natIdentifyEquals ⟨7, [act7a], []⟩
        [⟨1, ChangeType.added, "b"⟩] ⟨1, 1⟩ ⟨2, 2⟩).1 ∧
    identityInvariant (undo applyStub reverseStub ⟨7, [act7a], []⟩ "a").1 ∧
    identityInvariant (redo applyStub ⟨7, [act7a], []⟩ "a").1 ∧
    identityInvariant (clear (⟨7, [act7a], []⟩ : TextEditActionStack Nat)) :=
  claim2_identityInvariant_amended natIdentifyEquals applyStub reverseStub _
    (by intro a ha; simp [act7a] at ha; simp [ha])
    [⟨1, ChangeType.added, "b"⟩] ⟨1, 1⟩ ⟨2, 2⟩ "a"

end TextEditActionStack

namespace TextEditActionStack

/-- C3: `undo(currentSnapshot)` with an empty undo history is a defined
no-op: the state is unchanged, no event is emitted and nothing is returned.
Otherwise it pops the top record, re-stamps it with the identity of the
stack, pushes the re-stamped record onto the redo history, builds the
reversal (selections swapped, changes replaced by the inverse from the diff
engine), applies the reversal to the snapshot, emits one restore-type
`actionCreate` event carrying the reversal, and returns the new snapshot,
the new selection (the `selectionAfter` of the reversal) and the reversal
record. -/
theorem claim3_undo_spec (applyFn : String → List TextChange → String)
    (reverseFn : List TextChange → List TextChange)
    (st : TextEditActionStack α) (lastTextContent : String) :
    (st.undoActions = [] →
      undo applyFn reverseFn st lastTextContent = (st, [], none)) ∧
    (∀ init a, st.undoActions = init ++ [a] →
      undo applyFn reverseFn st lastTextContent =
        ({ st with
            undoActions := init,
            redoActions := st.redoActions ++
              [⟨st.editorIdentify, a.selectionBefore, a.selectionAfter,
                a.textChanges⟩] },
         [⟨TextEditActionType.restore,
            ⟨st.editorIdentify, a.selectionAfter, a.selectionBefore,
              reverseFn a.textChanges⟩⟩],
         some ⟨applyFn lastTextContent (reverseFn a.textChanges),
               a.selectionBefore,
               ⟨st.editorIdentify, a.selectionAfter, a.selectionBefore,
                 reverseFn a.textChanges⟩⟩)) := by
  constructor
  · intro h
    unfold undo
    rw [h]
    rfl
  · intro init a hu
    unfold undo
    rw [hu, List.getLast?_concat]
    dsimp only [reverseAction, applyTextEditAction]
    rw [List.dropLast_concat]

/-- C3, witness: both cases at concrete inputs — the empty stack is a no-op
and a singleton stack pops and reverses its record. -/
theorem claim3_undo_spec_witness :
    (undo applyStub reverseStub (mk0 7) "t" = (mk0 7, [], none)) ∧
    (undo applyStub reverseStub ⟨7, [act7a], []⟩ "a" =
      (⟨7, [], [act7a]⟩,
       [⟨TextEditActionType.restore,
          ⟨7, act7a.selectionAfter, act7a.selectionBefore,
            reverseStub act7a.textChanges⟩⟩],
       some ⟨applyStub "a" (reverseStub act7a.textChanges),
             act7a.selectionBefore,
             ⟨7, act7a.selectionAfter, act7a.selectionBefore,
               reverseStub act7a.textChanges⟩⟩)) :=
  ⟨(claim3_undo_spec applyStub reverseStub (mk0 7) "t").1 rfl,
   (claim3_undo_spec applyStub reverseStub ⟨7, [act7a], []⟩ "a").2 [] act7a rfl⟩

/-- C4: when `canUndo` holds (the undo history ends in record `a`) and the
current snapshot was obtained by replaying `a` onto a prior snapshot `t0`,
`undo` succeeds, and `redo` on the snapshot `undo` returned succeeds and
restores exactly the pre-undo snapshot and the pre-undo selection
(`selectionAfter` of `a`), under the collaborator contract
`apply (apply t c) (reverse c) = t`. -/
theorem claim4_undo_redo_inverse (applyFn : String → List TextChange → String)
    (reverseFn : List TextChange → List TextChange)
    (hinv : ∀ t c, applyFn (applyFn t c) (reverseFn c) = t)
    (st : TextEditActionStack α) (init : List (TextEditAction α))
    (a : TextEditAction α) (hu : st.undoActions = init ++ [a]) (t0 : String) :
    ∃ st1 ev1 res1,
      undo applyFn reverseFn st (applyFn t0 a.textChanges) = (st1, ev1, some res1) ∧
      ∃ st2 ev2 res2,
        redo applyFn st1 res1.textContent = (st2, ev2, some res2) ∧
        res2.textContent = applyFn t0 a.textChanges ∧
        res2.selection = a.selectionAfter := by
  unfold undo
  rw [hu, List.getLast?_concat]
  dsimp only [reverseAction, applyTextEditAction]
  refine ⟨_, _, _, rfl, ?_⟩
  unfold redo
  dsimp only
  rw [List.getLast?_concat]
  dsimp only [applyTextEditAction]
  refine ⟨_, _, _, rfl, ?_, rfl⟩
  dsimp only
  rw [hinv]

/-- C4, witness: the identity collaborators satisfy the inverse contract
and the roundtrip holds on a singleton stack. -/
theorem claim4_undo_redo_inverse_witness :
    ∃ st1 ev1 res1,
      undo applyStub reverseStub ⟨7, [act7a], []⟩
          (applyStub "" act7a.textChanges) = (st1, ev1, some res1) ∧
      ∃ st2 ev2 res2,
        redo applyStub st1 res1.textContent = (st2, ev2, some res2) ∧
        res2.textContent = applyStub "" act7a.textChanges ∧
        res2.selection = act7a.selectionAfter :=
  claim4_undo_redo_inverse applyStub reverseStub (fun _ _ => rfl) _ [] act7a rfl ""

/-- C5: step 1 of the merge policy.  If the undo history is empty, or the
candidate has more than one change, or its `selectionAfter` is not
collapsed, or its identity does not equal (per `eq`) that of the
undo-history top, the candidate is appended as a new top entry with its
fields unchanged and the redo history becomes empty. -/
theorem claim5_append_cases (eq : α → α → Bool) (st : TextEditActionStack α)
    (cur : TextEditAction α)
    (h : st.undoActions = [] ∨
      cur.textChanges.length > 1 ∨
      cur.selectionAfter.start ≠ cur.selectionAfter.endPos ∨
      ∃ init lastA, st.undoActions = init ++ [lastA] ∧
        eq cur.editorIdentify lastA.editorIdentify = false) :
    pushIntoUndoStack eq st cur =
      { st with undoActions := st.undoActions ++ [cur], redoActions := [] } :=
  pushIntoUndoStack_append eq st cur h

/-- C5, witness: a two-change candidate is appended unchanged and clears a
non-empty redo stack. -/
theorem claim5_append_cases_witness :
    pushIntoUndoStack natIdentifyEquals ⟨7, [act7a], [act7a]⟩ multiAction =
      ⟨7, [act7a, multiAction], []⟩ :=
  claim5_append_cases natIdentifyEquals _ multiAction (Or.inr (Or.inl (by decide)))

end TextEditActionStack

namespace TextEditActionStack

/-- C6: for a simple candidate (single change, collapsed caret, same
identity, no sole-newline text) whose sole change and the last change of
the undo-history top are both `added`, the fold happens exactly when the
candidate inserts at the end of the prior insertion
(`c.position = lc.position + lc.text.length`); the folded top entry ends in
the combined change at the position of the prior insertion with the
concatenated text, with `selectionBefore` taken from the previous top
record and `selectionAfter` from the candidate; otherwise the candidate is
appended unchanged.  In particular, typing `a`, `b`, `c` at contiguous
positions with a collapsed caret on one identity yields a single
undo-history entry with text `abc`. -/
theorem claim6_added_fold (eq : α → α → Bool) (st : TextEditActionStack α)
    (cur lastA : TextEditAction α) (init : List (TextEditAction α))
    (c lc : TextChange) (lcs : List TextChange)
    (hu : st.undoActions = init ++ [lastA])
    (hc : cur.textChanges = [c])
    (hsel : cur.selectionAfter.start = cur.selectionAfter.endPos)
    (hid : eq cur.editorIdentify lastA.editorIdentify = true)
    (hlc : lastA.textChanges = lcs ++ [lc])
    (hnl1 : isAllNewlines c.text = false)
    (hnl2 : isAllNewlines lc.text = false)
    (hk1 : lc.changeType = ChangeType.added)
    (hk2 : c.changeType = ChangeType.added) :
    (pushIntoUndoStack eq st cur =
      if c.position = lc.position + lc.text.length then
        { st with
          undoActions := init ++
            [⟨cur.editorIdentify, lastA.selectionBefore, cur.selectionAfter,
              lcs ++ [⟨lc.position, ChangeType.added, lc.text ++ c.text⟩]⟩],
          redoActions := [] }
      else
        { st with undoActions := st.undoActions ++ [cur], redoActions := [] }) ∧
    pushIntoUndoStack natIdentifyEquals
        (pushIntoUndoStack natIdentifyEquals
          (pushIntoUndoStack natIdentifyEquals (mk0 7)
            ⟨7, ⟨0, 0⟩, ⟨1, 1⟩, [⟨0, ChangeType.added, "a"⟩]⟩)
          ⟨7, ⟨1, 1⟩, ⟨2, 2⟩, [⟨1, ChangeType.added, "b"⟩]⟩)
        ⟨7, ⟨2, 2⟩, ⟨3, 3⟩, [⟨2, ChangeType.added, "c"⟩]⟩ =
      ⟨7, [⟨7, ⟨0, 0⟩, ⟨3, 3⟩, [⟨0, ChangeType.added, "abc"⟩]⟩], []⟩ := by
  constructor
  · rw [pushIntoUndoStack_simple eq st cur lastA init c lc lcs hu hc hsel hid hlc]
    rw [if_neg (by simp [hnl1, hnl2]), if_pos ⟨hk1, hk2⟩]
  · decide

/-- C6, witness: folding the `c` insertion into an `ab` record yields the
single `abc` record. -/
theorem claim6_added_fold_witness :
    pushIntoUndoStack natIdentifyEquals
        ⟨7, [⟨7, ⟨0, 0⟩, ⟨2, 2⟩, [⟨0, ChangeType.added, "ab"⟩]⟩], []⟩
        ⟨7, ⟨2, 2⟩, ⟨3, 3⟩, [⟨2, ChangeType.added, "c"⟩]⟩ =
      ⟨7, [⟨7, ⟨0, 0⟩, ⟨3, 3⟩, [⟨0, ChangeType.added, "abc"⟩]⟩], []⟩ := by
  have h := (claim6_added_fold natIdentifyEquals
    ⟨7, [⟨7, ⟨0, 0⟩, ⟨2, 2⟩, [⟨0, ChangeType.added, "ab"⟩]⟩], []⟩
    ⟨7, ⟨2, 2⟩, ⟨3, 3⟩, [⟨2, ChangeType.added, "c"⟩]⟩
    ⟨7, ⟨0, 0⟩, ⟨2, 2⟩, [⟨0, ChangeType.added, "ab"⟩]⟩ []
    ⟨2, ChangeType.added, "c"⟩ ⟨0, ChangeType.added, "ab"⟩ []
    rfl rfl rfl rfl rfl (by decide) (by decide) rfl rfl).1
  rw [h]
  decide

/-- C7: for a simple candidate whose sole change and the last change of the
undo-history top are both `removed`: at the same position (forward delete)
the fold produces the text of the top followed by that of the candidate at
the position of the top; at `lc.position - c.text.length` (backspace,
evaluated over the integers as in JavaScript) it produces the text of the
candidate followed by that of the top at the position of the candidate; in
both folds `selectionBefore` is inherited from the previous top record; at
any other position the candidate is appended unchanged. -/
theorem claim7_removed_fold (eq : α → α → Bool) (st : TextEditActionStack α)
    (cur lastA : TextEditAction α) (init : List (TextEditAction α))
    (c lc : TextChange) (lcs : List TextChange)
    (hu : st.undoActions = init ++ [lastA])
    (hc : cur.textChanges = [c])
    (hsel : cur.selectionAfter.start = cur.selectionAfter.endPos)
    (hid : eq cur.editorIdentify lastA.editorIdentify = true)
    (hlc : lastA.textChanges = lcs ++ [lc])
    (hnl1 : isAllNewlines c.text = false)
    (hnl2 : isAllNewlines lc.text = false)
    (hk1 : lc.changeType = ChangeType.removed)
    (hk2 : c.changeType = ChangeType.removed) :
    pushIntoUndoStack eq st cur =
      if c.position = lc.position then
        { st with
          undoActions := init ++
            [⟨cur.editorIdentify, lastA.selectionBefore, cur.selectionAfter,
              lcs ++ [⟨lc.position, ChangeType.removed, lc.text ++ c.text⟩]⟩],
          redoActions := [] }
      else if (c.position : Int) = (lc.position : Int) - (c.text.length : Int) then
        { st with
          undoActions := init ++
            [⟨cur.editorIdentify, lastA.selectionBefore, cur.selectionAfter,
              lcs ++ [⟨c.position, ChangeType.removed, c.text ++ lc.text⟩]⟩],
          redoActions := [] }
      else
        { st with undoActions := st.undoActions ++ [cur], redoActions := [] } := by
  rw [pushIntoUndoStack_simple eq st cur lastA init c lc lcs hu hc hsel hid hlc]
  rw [if_neg (by simp [hnl1, hnl2]), if_neg (by simp [hk1]), if_pos ⟨hk1, hk2⟩]

/-- C7, witness: two forward deletions at the same offset fold into one
record removing `xy`. -/
theorem claim7_removed_fold_witness :
    pushIntoUndoStack natIdentifyEquals
        ⟨7, [⟨7, ⟨3, 3⟩, ⟨3, 3⟩, [⟨3, ChangeType.removed, "x"⟩]⟩], []⟩
        ⟨7, ⟨3, 3⟩, ⟨3, 3⟩, [⟨3, ChangeType.removed, "y"⟩]⟩ =
      ⟨7, [⟨7, ⟨3, 3⟩, ⟨3, 3⟩, [⟨3, ChangeType.removed, "xy"⟩]⟩], []⟩ := by
  have h := claim7_removed_fold natIdentifyEquals
    ⟨7, [⟨7, ⟨3, 3⟩, ⟨3, 3⟩, [⟨3, ChangeType.removed, "x"⟩]⟩], []⟩
    ⟨7, ⟨3, 3⟩, ⟨3, 3⟩, [⟨3, ChangeType.removed, "y"⟩]⟩
    ⟨7, ⟨3, 3⟩, ⟨3, 3⟩, [⟨3, ChangeType.removed, "x"⟩]⟩ []
    ⟨3, ChangeType.removed, "y"⟩ ⟨3, ChangeType.removed, "x"⟩ []
    rfl rfl rfl rfl rfl (by decide) (by decide) rfl rfl
  rw [h]
  decide

/-- C8: for a simple candidate reaching step 2 of the merge policy, if the
text of the last change of the undo-history top or the text of the sole
change of the candidate consists solely of newline characters, no fold
occurs regardless of kinds or contiguity: the previous top entry is kept
and a new entry equal to the candidate is appended. -/
theorem claim8_newline_no_fold (eq : α → α → Bool) (st : TextEditActionStack α)
    (cur lastA : TextEditAction α) (init : List (TextEditAction α))
    (c lc : TextChange) (lcs : List TextChange)
    (hu : st.undoActions = init ++ [lastA])
    (hc : cur.textChanges = [c])
    (hsel : cur.selectionAfter.start = cur.selectionAfter.endPos)
    (hid : eq cur.editorIdentify lastA.editorIdentify = true)
    (hlc : lastA.textChanges = lcs ++ [lc])
    (hnl : isAllNewlines c.text = true ∨ isAllNewlines lc.text = true) :
    pushIntoUndoStack eq st cur =
      { st with undoActions := st.undoActions ++ [cur], redoActions := [] } := by
  rw [pushIntoUndoStack_simple eq st cur lastA init c lc lcs hu hc hsel hid hlc]
  rw [if_pos (by simpa using hnl)]

/-- C8, witness: a newline insertion after an `a` insertion is appended as
its own record, keeping the previous top. -/
theorem claim8_newline_no_fold_witness :
    pushIntoUndoStack natIdentifyEquals ⟨7, [act7a], []⟩
        ⟨7, ⟨1, 1⟩, ⟨2, 2⟩, [⟨1, ChangeType.added, "\n"⟩]⟩ =
      ⟨7, [act7a, ⟨7, ⟨1, 1⟩, ⟨2, 2⟩, [⟨1, ChangeType.added, "\n"⟩]⟩], []⟩ :=
  claim8_newline_no_fold natIdentifyEquals _ _ act7a []
    ⟨1, ChangeType.added, "\n"⟩ ⟨0, ChangeType.added, "a"⟩ []
    rfl rfl rfl rfl rfl (Or.inl (by decide))

/-- C9: `updateByTextChanges` builds the candidate from the identity of the
stack and the given selections and changes, emits exactly one
`actionCreate` event of type `update` whose payload is that raw, unmerged
candidate (even when the merge policy folds, the payload is never the
folded history form — in the pure embedding the event is a function of the
inputs only, reflecting that the dispatch precedes the history mutation),
and returns the same unmerged candidate; `update` delegates to it on the
diff of the two snapshots. -/
theorem claim9_update_event (diffFn : String → String → List TextChange)
    (eq : α → α → Bool) (st : TextEditActionStack α)
    (lastTextContent textContent : String) (textChanges : List TextChange)
    (lastSelection selection : TextSelection) :
    updateByTextChanges eq st textChanges lastSelection selection =
      (pushIntoUndoStack eq st
          ⟨st.editorIdentify, lastSelection, selection, textChanges⟩,
        [⟨TextEditActionType.update,
          ⟨st.editorIdentify, lastSelection, selection, textChanges⟩⟩],
        ⟨st.editorIdentify, lastSelection, selection, textChanges⟩) ∧
    update diffFn eq st lastTextContent textContent lastSelection selection =
      updateByTextChanges eq st (diffFn lastTextContent textContent)
        lastSelection selection :=
  ⟨rfl, rfl⟩

/-- C10: whenever the merge policy folds (added-contiguous, forward-delete
or backspace case), the change sequence of the folded record equals the
change sequence of the previous top with only its final entry replaced by
the combined change — all earlier entries are preserved unchanged in order
— and the undo-history length is unchanged by the fold. -/
theorem claim10_fold_frame (eq : α → α → Bool) (st : TextEditActionStack α)
    (cur lastA : TextEditAction α) (init : List (TextEditAction α))
    (c lc : TextChange) (lcs : List TextChange)
    (hu : st.undoActions = init ++ [lastA])
    (hc : cur.textChanges = [c])
    (hsel : cur.selectionAfter.start = cur.selectionAfter.endPos)
    (hid : eq cur.editorIdentify lastA.editorIdentify = true)
    (hlc : lastA.textChanges = lcs ++ [lc])
    (hlcs : lcs ≠ [])
    (hnl1 : isAllNewlines c.text = false)
    (hnl2 : isAllNewlines lc.text = false)
    (hfold :
      (lc.changeType = ChangeType.added ∧ c.changeType = ChangeType.added ∧
        c.position = lc.position + lc.text.length) ∨
      (lc.changeType = ChangeType.removed ∧ c.changeType = ChangeType.removed ∧
        c.position = lc.position) ∨
      (lc.changeType = ChangeType.removed ∧ c.changeType = ChangeType.removed ∧
        (c.position : Int) = (lc.position : Int) - (c.text.length : Int))) :
    ∃ cc,
      (pushIntoUndoStack eq st cur).undoActions =
        init ++
          [⟨cur.editorIdentify, lastA.selectionBefore, cur.selectionAfter,
            lcs ++ [cc]⟩] ∧
      (pushIntoUndoStack eq st cur).undoActions.length =
        st.undoActions.length := by
  rw [pushIntoUndoStack_simple eq st cur lastA init c lc lcs hu hc hsel hid hlc]
  rcases hfold with ⟨hk1, hk2, hp⟩ | ⟨hk1, hk2, hp⟩ | ⟨hk1, hk2, hp⟩
  · rw [if_neg (by simp [hnl1, hnl2]), if_pos ⟨hk1, hk2⟩, if_pos hp]
    exact ⟨_, rfl, by simp [hu]⟩
  · rw [if_neg (by simp [hnl1, hnl2]), if_neg (by simp [hk1]), if_pos ⟨hk1, hk2⟩,
      if_pos hp]
    exact ⟨_, rfl, by simp [hu]⟩
  · rw [if_neg (by simp [hnl1, hnl2]), if_neg (by simp [hk1]), if_pos ⟨hk1, hk2⟩]
    by_cases hq : c.position = lc.position
    · rw [if_pos hq]
      exact ⟨_, rfl, by simp [hu]⟩
    · rw [if_neg hq, if_pos hp]
      exact ⟨_, rfl, by simp [hu]⟩

/-- C10, witness: folding a contiguous insertion into a two-change top
record replaces only the final change and keeps the history length. -/
theorem claim10_fold_frame_witness :
    ∃ cc,
      (pushIntoUndoStack natIdentifyEquals
          ⟨7, [⟨7, ⟨0, 0⟩, ⟨5, 5⟩,
              [⟨0, ChangeType.added, "Q"⟩, ⟨4, ChangeType.added, "ab"⟩]⟩], []⟩
          ⟨7, ⟨6, 6⟩, ⟨7, 7⟩, [⟨6, ChangeType.added, "c"⟩]⟩).undoActions =
        [] ++
          [⟨7, (⟨7, ⟨0, 0⟩, ⟨5, 5⟩,
              [⟨0, ChangeType.added, "Q"⟩,
               ⟨4, ChangeType.added, "ab"⟩]⟩ : TextEditAction Nat).selectionBefore,
            (⟨7, ⟨6, 6⟩, ⟨7, 7⟩,
              [⟨6, ChangeType.added, "c"⟩]⟩ : TextEditAction Nat).selectionAfter,
            [⟨0, ChangeType.added, "Q"⟩] ++ [cc]⟩] ∧
      (pushIntoUndoStack natIdentifyEquals
          ⟨7, [⟨7, ⟨0, 0⟩, ⟨5, 5⟩,
              [⟨0, ChangeType.added, "Q"⟩, ⟨4, ChangeType.added, "ab"⟩]⟩], []⟩
          ⟨7, ⟨6, 6⟩, ⟨7, 7⟩, [⟨6, ChangeType.added, "c"⟩]⟩).undoActions.length =
        (⟨7, [⟨7, ⟨0, 0⟩, ⟨5, 5⟩,
            [⟨0, ChangeType.added, "Q"⟩, ⟨4, ChangeType.added, "ab"⟩]⟩], []⟩ :
          TextEditActionStack Nat).undoActions.length :=
  claim10_fold_frame natIdentifyEquals _ _ _ []
    ⟨6, ChangeType.added, "c"⟩ ⟨4, ChangeType.added, "ab"⟩
    [⟨0, ChangeType.added, "Q"⟩]
    rfl rfl rfl rfl rfl (by decide) (by decide) (by decide)
    (Or.inl ⟨rfl, rfl, by decide⟩)

end TextEditActionStack
